import Mathlib

set_option maxRecDepth 8000

/-!
Shallow embedding of the streaming zip reader (files io.go, fast_reader.go,
fast_crypto.go) and proofs about its claimed behaviour.

Byte streams are modelled as lists of natural numbers; the underlying
io.Reader is modelled as the list of bytes it has not yet delivered, with
the bytes.Reader/MultiReader convention that a read on an exhausted source
reports end of file and a read on a non-empty source delivers as many of
the requested bytes as are available.  Go errors are an inductive type;
a Go panic is modelled as the value none of an Option-typed result.
-/

namespace Zip

/-- The Go error values (and the two errors.New messages of io.go) that the
embedded code can produce or compare against. -/
inductive Err where
  | eof
  | unexpectedEOF
  | errFormat
  | errChecksum
  | errPassword
  | errAuthentication
  | errDecryption
  | errAlgorithm
  | unsupportedWhence
  | offsetLessThanReadIdx
  deriving DecidableEq, Repr

abbrev Bytes := List Nat

/-- Model of a read on the raw underlying io.Reader: an exhausted source
returns (nothing, io.EOF); otherwise up to k of the remaining bytes are
delivered with no error.  Returns (bytes delivered, error, remaining source). -/
def rawRead (src : Bytes) (k : Nat) : Bytes × Option Err × Bytes :=
  if src.isEmpty then ([], some .eof, src)
  else (src.take k, none, src.drop k)

/-- State of RewindReader (io.go lines 10-19).  The mutex is irrelevant to the
sequential semantics; rawReader holds the bytes not yet consumed from the
underlying source. -/
structure RewindReader where
  rawReader : Bytes
  buf : Bytes
  bufReadIdx : Nat
  rewound : Bool
  buffering : Bool
  bufferSize : Nat
  readIdx : Int
  deriving DecidableEq, Repr

namespace RewindReader

/-- RewindReader.read (io.go lines 27-47): while rewound and buffered bytes
remain, replay them; otherwise read from the raw source, appending to the
buffer while buffering.  (The over-read log message is a no-op here.) -/
def read (r : RewindReader) (k : Nat) : Bytes × Option Err × RewindReader :=
  if r.rewound ∧ r.bufReadIdx < r.buf.length then
    let out := (r.buf.drop r.bufReadIdx).take k
    (out, none, { r with bufReadIdx := r.bufReadIdx + out.length })
  else
    let (out, e, src) := rawRead r.rawReader k
    (out, e, { r with rewound := false, rawReader := src,
                      buf := if r.buffering then r.buf ++ out else r.buf })

/-- RewindReader.Read (io.go lines 21-25): read, then advance readIdx by the
number of bytes delivered. -/
def Read (r : RewindReader) (k : Nat) : Bytes × Option Err × RewindReader :=
  let (out, e, r₁) := r.read k
  (out, e, { r₁ with readIdx := r₁.readIdx + out.length })

/-- The loop of RewindReader.discard (io.go lines 72-77): while
discarded+128 < n, read 128 bytes through Read (which itself advances
readIdx), aborting on error with the count so far.  fuel only bounds the
recursion; since discarded grows by 128 each pass, n is always enough and
the fuel-exhausted branch is unreachable from discard. -/
def discardLoopF (r : RewindReader) (n discarded : Nat) : Nat → Nat × Option Err × RewindReader
  | 0 => (discarded, none, r)
  | fuel + 1 =>
    if discarded + 128 < n then
      let (_, e, r₁) := r.Read 128
      match e with
      | some err => (discarded, some err, r₁)
      | none => discardLoopF r₁ n (discarded + 128) fuel
    else (discarded, none, r)

def discardLoop (r : RewindReader) (n discarded : Nat) : Nat × Option Err × RewindReader :=
  discardLoopF r n discarded n

/-- RewindReader.discard (io.go lines 67-82), faithfully: for n < 128 it
returns the result of a single Read of n bytes; otherwise it loops in
128-byte chunks while discarded+128 < n, then reads n % 128 further bytes
when that remainder is non-zero (returning only that last read's count),
and otherwise returns n without having read the final chunk at all. -/
def discard (r : RewindReader) (n : Nat) : Nat × Option Err × RewindReader :=
  if n < 128 then
    let (out, e, r₁) := r.Read n
    (out.length, e, r₁)
  else
    match r.discardLoop n 0 with
    | (d, some err, r₁) => (d, some err, r₁)
    | (_, none, r₁) =>
      if n % 128 ≠ 0 then
        let (out, e, r₂) := r₁.Read (n % 128)
        (out.length, e, r₂)
      else (n, none, r₁)

/-- RewindReader.Discard (io.go lines 61-65): calls discard (whose internal
Reads already advanced readIdx) and then adds the returned count to readIdx
again. -/
def Discard (r : RewindReader) (n : Nat) : Nat × Option Err × RewindReader :=
  let (m, e, r₁) := r.discard n
  (m, e, { r₁ with readIdx := r₁.readIdx + m })

/-- RewindReader.Seek (io.go lines 84-99): whence must be 0, backward seeks
fail, forward seeks discard offset - readIdx bytes via Discard. -/
def Seek (r : RewindReader) (offset : Int) (whence : Nat) : Int × Option Err × RewindReader :=
  if whence ≠ 0 then (0, some .unsupportedWhence, r)
  else if offset < r.readIdx then (0, some .offsetLessThanReadIdx, r)
  else
    let d := offset - r.readIdx
    if 0 < d then
      match r.Discard d.toNat with
      | (_, some err, r₁) => (0, some err, r₁)
      | (_, none, r₁) => (offset, none, r₁)
    else (offset, none, r)

/-- RewindReader.Rewind (io.go lines 101-110); none models the panic taken
when no buffer size is set. -/
def Rewind (r : RewindReader) : Option RewindReader :=
  if r.bufferSize = 0 then none
  else some { r with rewound := true, bufReadIdx := 0,
                     readIdx := r.readIdx - r.buf.length }

/-- RewindReader.StopBuffering (io.go lines 112-116). -/
def StopBuffering (r : RewindReader) : RewindReader :=
  { r with buffering := false }

/-- RewindReader.SetBufferSize (io.go lines 118-138); none models the two
panics (disabling while not buffering, enabling while already buffering). -/
def SetBufferSize (r : RewindReader) (size : Nat) : Option RewindReader :=
  if size = 0 then
    if r.buffering = false then none
    else some { r with buffering := false, buf := [], bufReadIdx := 0, bufferSize := 0 }
  else
    if r.buffering = true then none
    else some { r with buffering := true, bufReadIdx := 0, bufferSize := size, buf := [] }

/-- Repeatedly Read single bytes, collecting the delivered bytes of n calls
together with the final state (errors deliver no bytes and leave state). -/
def readN (r : RewindReader) : Nat → Bytes × RewindReader
  | 0 => ([], r)
  | n + 1 =>
    let (out, _, r₁) := r.Read 1
    let (rest, r₂) := readN r₁ n
    (out ++ rest, r₂)

/-- Drain the reader with single-byte Read calls, stopping at the first
error; collects the bytes delivered by up to fuel calls. -/
def drain (r : RewindReader) : Nat → Bytes
  | 0 => []
  | fuel + 1 =>
    let (out, e, r₁) := r.Read 1
    match e with
    | some _ => []
    | none => out ++ drain r₁ fuel

end RewindReader

/-! ### CRC-32 (IEEE), as used by hash/crc32 with crc32.NewIEEE in
fast_reader.go.  The digest is the standard reflected bitwise algorithm with
polynomial 0xEDB88320; incremental writes concatenate, so the hash state is
modelled as the list of bytes written and Sum32 as crc32 of that list. -/

def crcPoly : Nat := 0xEDB88320

/-- One bit step of the reflected CRC-32 algorithm. -/
def crcStep (s : Nat) : Nat := if s % 2 = 1 then (s / 2) ^^^ crcPoly else s / 2

/-- Eight bit steps: one processed byte. -/
def crcStep8 (s : Nat) : Nat :=
  crcStep (crcStep (crcStep (crcStep (crcStep (crcStep (crcStep (crcStep s)))))))

/-- CRC-32 state update for one byte. -/
def crcByteUpd (s b : Nat) : Nat := crcStep8 (s ^^^ b)

/-- CRC-32 state after processing a list of bytes. -/
def crcUpdate (s : Nat) (l : Bytes) : Nat := l.foldl crcByteUpd s

/-- crc32.NewIEEE digest value over a byte sequence (Sum32). -/
def crc32 (l : Bytes) : Nat := crcUpdate 0xFFFFFFFF l ^^^ 0xFFFFFFFF

lemma xor_xor_cancel (a b : Nat) : (a ^^^ b) ^^^ b = a := by
  rw [Nat.xor_assoc, Nat.xor_self, Nat.xor_zero]

lemma crcStep_lt {s : Nat} (h : s < 2 ^ 32) : crcStep s < 2 ^ 32 := by
  unfold crcStep
  split
  · exact Nat.xor_lt_two_pow (by omega) (by norm_num [crcPoly])
  · omega

/-- Explicit inverse of crcStep on 32-bit states: the polynomial has bit 31
set while a shifted state does not, so bit 31 of the output records whether
the conditional xor happened. -/
def crcStepInv (t : Nat) : Nat := if 2 ^ 31 ≤ t then 2 * (t ^^^ crcPoly) + 1 else 2 * t

lemma crcStepInv_crcStep {s : Nat} (h : s < 2 ^ 32) : crcStepInv (crcStep s) = s := by
  unfold crcStep crcStepInv
  by_cases hp : s % 2 = 1
  · simp only [hp, if_true]
    have h2 : s / 2 < 2 ^ 31 := by omega
    have hbit : ((s / 2) ^^^ crcPoly).testBit 31 = true := by
      rw [Nat.testBit_xor, Nat.testBit_lt_two_pow h2]
      decide
    rw [if_pos (Nat.testBit_implies_ge hbit), xor_xor_cancel]
    omega
  · simp only [hp, if_false]
    have h2 : s / 2 < 2 ^ 31 := by omega
    rw [if_neg (by omega)]
    omega

lemma crcStep_inj {a b : Nat} (ha : a < 2 ^ 32) (hb : b < 2 ^ 32)
    (h : crcStep a = crcStep b) : a = b := by
  have h2 := congrArg crcStepInv h
  rwa [crcStepInv_crcStep ha, crcStepInv_crcStep hb] at h2

lemma crcStep8_lt {s : Nat} (h : s < 2 ^ 32) : crcStep8 s < 2 ^ 32 := by
  unfold crcStep8
  exact crcStep_lt (crcStep_lt (crcStep_lt (crcStep_lt (crcStep_lt (crcStep_lt
    (crcStep_lt (crcStep_lt h)))))))

lemma crcStep8_inj {a b : Nat} (ha : a < 2 ^ 32) (hb : b < 2 ^ 32)
    (h : crcStep8 a = crcStep8 b) : a = b := by
  unfold crcStep8 at h
  have a1 := crcStep_lt ha; have a2 := crcStep_lt a1; have a3 := crcStep_lt a2
  have a4 := crcStep_lt a3; have a5 := crcStep_lt a4; have a6 := crcStep_lt a5
  have a7 := crcStep_lt a6
  have b1 := crcStep_lt hb; have b2 := crcStep_lt b1; have b3 := crcStep_lt b2
  have b4 := crcStep_lt b3; have b5 := crcStep_lt b4; have b6 := crcStep_lt b5
  have b7 := crcStep_lt b6
  exact crcStep_inj ha hb (crcStep_inj a1 b1 (crcStep_inj a2 b2 (crcStep_inj a3 b3
    (crcStep_inj a4 b4 (crcStep_inj a5 b5 (crcStep_inj a6 b6 (crcStep_inj a7 b7 h)))))))

lemma crcByteUpd_lt {s b : Nat} (hs : s < 2 ^ 32) (hb : b < 2 ^ 32) :
    crcByteUpd s b < 2 ^ 32 :=
  crcStep8_lt (Nat.xor_lt_two_pow hs hb)

lemma crcByteUpd_injState {s₁ s₂ b : Nat} (h₁ : s₁ < 2 ^ 32) (h₂ : s₂ < 2 ^ 32)
    (hb : b < 2 ^ 32) (h : crcByteUpd s₁ b = crcByteUpd s₂ b) : s₁ = s₂ := by
  unfold crcByteUpd at h
  have h3 := crcStep8_inj (Nat.xor_lt_two_pow h₁ hb) (Nat.xor_lt_two_pow h₂ hb) h
  have h4 := congrArg (· ^^^ b) h3
  simpa [xor_xor_cancel] using h4

lemma crcByteUpd_injByte {s b₁ b₂ : Nat} (hs : s < 2 ^ 32) (h₁ : b₁ < 2 ^ 32)
    (h₂ : b₂ < 2 ^ 32) (h : crcByteUpd s b₁ = crcByteUpd s b₂) : b₁ = b₂ := by
  unfold crcByteUpd at h
  have h3 := crcStep8_inj (Nat.xor_lt_two_pow hs h₁) (Nat.xor_lt_two_pow hs h₂) h
  have h4 := congrArg (s ^^^ ·) h3
  simpa [← Nat.xor_assoc, Nat.xor_self, Nat.zero_xor] using h4

lemma crcUpdate_lt : ∀ (l : Bytes) (s : Nat), s < 2 ^ 32 → (∀ b ∈ l, b < 2 ^ 32) →
    crcUpdate s l < 2 ^ 32
  | [], _, hs, _ => hs
  | b :: l, s, hs, hl => by
    have h2 := crcUpdate_lt l (crcByteUpd s b)
      (crcByteUpd_lt hs (hl b (by simp))) (fun x hx => hl x (by simp [hx]))
    simpa [crcUpdate] using h2

lemma crcUpdate_injState : ∀ (l : Bytes) (s₁ s₂ : Nat), s₁ < 2 ^ 32 → s₂ < 2 ^ 32 →
    (∀ b ∈ l, b < 2 ^ 32) → crcUpdate s₁ l = crcUpdate s₂ l → s₁ = s₂
  | [], _, _, _, _, _, h => by simpa [crcUpdate] using h
  | b :: l, s₁, s₂, h₁, h₂, hl, h => by
    have hb : b < 2 ^ 32 := hl b (by simp)
    have h3 : crcUpdate (crcByteUpd s₁ b) l = crcUpdate (crcByteUpd s₂ b) l := by
      simpa [crcUpdate] using h
    have h4 := crcUpdate_injState l (crcByteUpd s₁ b) (crcByteUpd s₂ b)
      (crcByteUpd_lt h₁ hb) (crcByteUpd_lt h₂ hb) (fun x hx => hl x (by simp [hx])) h3
    exact crcByteUpd_injState h₁ h₂ hb h4

/-- A single corrupted byte always changes the CRC-32 of a byte sequence. -/
theorem crc32_single_byte_corruption (pre suf : Bytes) (b b' : Nat)
    (hpre : ∀ x ∈ pre, x < 256) (hsuf : ∀ x ∈ suf, x < 256)
    (hb : b < 256) (hb' : b' < 256) (hne : b ≠ b') :
    crc32 (pre ++ b :: suf) ≠ crc32 (pre ++ b' :: suf) := by
  intro h
  unfold crc32 at h
  have h2 : crcUpdate 0xFFFFFFFF (pre ++ b :: suf) =
      crcUpdate 0xFFFFFFFF (pre ++ b' :: suf) := by
    have h3 := congrArg (· ^^^ 0xFFFFFFFF) h
    simpa [xor_xor_cancel] using h3
  have hS : crcUpdate 0xFFFFFFFF pre < 2 ^ 32 :=
    crcUpdate_lt pre 0xFFFFFFFF (by norm_num)
      (fun x hx => by have := hpre x hx; omega)
  have hsuf32 : ∀ x ∈ suf, x < 2 ^ 32 := fun x hx => by have := hsuf x hx; omega
  rw [show ∀ c : Nat, pre ++ c :: suf = (pre ++ [c]) ++ suf by intro c; simp] at h2
  simp only [crcUpdate, List.foldl_append, List.foldl_cons, List.foldl_nil] at h2
  have h5 := crcUpdate_injState suf _ _
    (crcByteUpd_lt hS (by omega)) (crcByteUpd_lt hS (by omega)) hsuf32 h2
  exact hne (crcByteUpd_injByte hS (by omega) (by omega) h5)

/-! ### fastFileReader (fast_reader.go).  The entry body reaches the reader
through io.LimitReader(sharedReader, CompressedSize64) and, for the stored
(uncompressed) method, the decompressor is a pass-through, so rc is modelled
as that limited view of the shared RewindReader. -/

/-- Modelled from the spec: the fixed record signatures and lengths of the
persisted format (declared in the repository outside src/): local-file-header
signature and 30-byte fixed length, central-directory header signature,
end-of-central-directory signature, optional data-descriptor signature and
16-byte trailer window. -/
def fileHeaderSignature : Nat := 0x04034b50

def directoryHeaderSignature : Nat := 0x02014b50

def directoryEndSignature : Nat := 0x06054b50

def dataDescriptorSignature : Nat := 0x08074b50

def fileHeaderLen : Nat := 30

def dataDescriptorLen : Nat := 16

/-- readBuf.uint32: little-endian 32-bit value of the first four bytes. -/
def le32 (b : Bytes) : Nat :=
  b.getD 0 0 + 256 * (b.getD 1 0 + 256 * (b.getD 2 0 + 256 * b.getD 3 0))

/-- io.ReadFull / io.ReadAtLeast: read repeatedly until min bytes are
collected or an error occurs; a bare end of file with some bytes already
read becomes io.ErrUnexpectedEOF.  fuel bounds the loop (one byte of
progress per successful iteration makes min + 1 always enough). -/
def readFullGo (r : RewindReader) (min fuel : Nat) (acc : Bytes) :
    Bytes × Option Err × RewindReader :=
  match fuel with
  | 0 => (acc, if min ≤ acc.length then none else some .unexpectedEOF, r)
  | fuel + 1 =>
    if acc.length < min then
      let (out, e, r₁) := r.Read (min - acc.length)
      match e with
      | some err =>
        let acc₂ := acc ++ out
        (acc₂, if min ≤ acc₂.length then none
               else if err = .eof ∧ 0 < acc₂.length then some .unexpectedEOF
               else some err, r₁)
      | none => readFullGo r₁ min fuel (acc ++ out)
    else (acc, none, r)

def readFull (r : RewindReader) (k : Nat) : Bytes × Option Err × RewindReader :=
  readFullGo r k (k + 1) []

/-- fastFileReader state (fast_reader.go lines 194-202): rc is the limited
pass-through view of the shared reader (raw together with the LimitReader
budget limitN); the crc32 hash state is the list of bytes written to it. -/
structure FastFileReader where
  raw : RewindReader
  limitN : Int
  hashed : Bytes
  nread : Nat
  descOff : Int
  fCRC32 : Nat
  fUncompressedSize : Nat
  err : Option Err
  deriving DecidableEq, Repr

namespace FastFileReader

/-- rc.Read for a stored entry: io.LimitReader(raw, size).Read. -/
def rcRead (r : FastFileReader) (k : Nat) : Bytes × Option Err × FastFileReader :=
  if r.limitN ≤ 0 then ([], some .eof, r)
  else
    let kk := Min.min k r.limitN.toNat
    let (out, e, raw₁) := r.raw.Read kk
    (out, e, { r with raw := raw₁, limitN := r.limitN - out.length })

/-- fastFileReader.readDataDescriptor (fast_reader.go lines 242-275) acting
on the shared reader; the result is none when a panic inside
SetBufferSize/Rewind would fire, and otherwise carries the Go return value
together with the reader state after the deferred StopBuffering. -/
def readDataDescriptor (raw : RewindReader) (descOff : Int) (fCRC32 : Nat) :
    Option (Option Err × RewindReader) :=
  match raw.Seek descOff 0 with
  | (_, some err, raw₁) => some (some err, raw₁)
  | (_, none, raw₁) =>
    match raw₁.SetBufferSize dataDescriptorLen with
    | none => none
    | some raw₂ =>
      match readFull raw₂ dataDescriptorLen with
      | (_, some err, raw₃) => some (some err, raw₃.StopBuffering)
      | (buf, none, raw₃) =>
        let sig := le32 (buf.take 4)
        if sig ≠ dataDescriptorSignature ∧
            (sig = fileHeaderSignature ∨ sig = directoryHeaderSignature) then
          match raw₃.Rewind with
          | none => none
          | some raw₄ => some (none, raw₄.StopBuffering.StopBuffering)
        else
          let off := if sig ≠ dataDescriptorSignature then 4 else 0
          match readFull raw₃ (12 - off) with
          | (_, some err, raw₄) => some (some err, raw₄.StopBuffering)
          | (more, none, raw₄) =>
            let buf12 := buf.take off ++ more
            if le32 (buf12.take 4) ≠ fCRC32 then
              some (some .errChecksum, raw₄.StopBuffering)
            else some (none, raw₄.StopBuffering)

/-- fastFileReader.Read (fast_reader.go lines 210-240); none models a panic
reached through readDataDescriptor.  Note the two faithful quirks: the
unexpected-truncation return does not store the error in r.err, and on a
clean end of stream the stored error is io.EOF itself. -/
def Read (r : FastFileReader) (k : Nat) :
    Option (Bytes × Option Err × FastFileReader) :=
  if r.err ≠ none then some ([], r.err, r)
  else
    let (out, e, r₁) := r.rcRead k
    let r₂ := { r₁ with hashed := r₁.hashed ++ out, nread := r₁.nread + out.length }
    match e with
    | none => some (out, none, r₂)
    | some err =>
      if err = .eof then
        if r₂.nread ≠ r₂.fUncompressedSize then some ([], some .unexpectedEOF, r₂)
        else if 0 < r₂.descOff then
          match readDataDescriptor r₂.raw r₂.descOff r₂.fCRC32 with
          | none => none
          | some (some err1, raw₁) =>
            let e₂ : Option Err := some (if err1 = .eof then .unexpectedEOF else err1)
            some (out, e₂, { r₂ with raw := raw₁, err := e₂ })
          | some (none, raw₁) =>
            let e₂ : Option Err :=
              if crc32 r₂.hashed ≠ r₂.fCRC32 then some .errChecksum else some .eof
            some (out, e₂, { r₂ with raw := raw₁, err := e₂ })
        else
          let e₂ : Option Err :=
            if r₂.fCRC32 ≠ 0 ∧ crc32 r₂.hashed ≠ r₂.fCRC32 then some .errChecksum
            else some .eof
          some (out, e₂, { r₂ with err := e₂ })
      else some (out, some err, { r₂ with err := some err })

/-- Drive the reader with single-byte reads until the first error, which is
returned together with the state at that point; none propagates a panic,
and a (none, _) result means the fuel ran out first. -/
def run (r : FastFileReader) : Nat → Option (Option Err × FastFileReader)
  | 0 => some (none, r)
  | fuel + 1 =>
    match r.Read 1 with
    | none => none
    | some (_, some err, r₁) => some (some err, r₁)
    | some (_, none, r₁) => r₁.run fuel

/-- The error outcome of run. -/
def runErr (r : FastFileReader) (fuel : Nat) : Option (Option Err) :=
  (r.run fuel).map (fun x => x.1)

end FastFileReader

/-- The fastFileReader that FastFile.Open (fast_reader.go lines 122-169)
builds for a stored, unencrypted entry, with raw already advanced to the
body start: limit the shared reader to CompressedSize64 bytes, fresh crc32
hash, nread zero, and descOff = headerOffset + fileHeaderLen + discardSize +
size when flag bit 3 is set, 0 otherwise. -/
def openFastFileReader (raw : RewindReader) (headerOffset discardSize : Int)
    (flags crc : Nat) (uncompressedSize compressedSize : Nat) : FastFileReader :=
  { raw := raw, limitN := (compressedSize : Int), hashed := [], nread := 0,
    descOff := if flags &&& 0x8 ≠ 0 then
        headerOffset + (fileHeaderLen : Int) + discardSize + (compressedSize : Int)
      else 0,
    fCRC32 := crc, fUncompressedSize := uncompressedSize, err := none }

/-- A RewindReader in its initial configuration over a given source, as
built at the struct literals in fast_reader.go line 110 and fast_crypto.go
line 13 (readIdx generalized to also describe mid-stream states). -/
def mkReader (src : Bytes) (idx : Int) : RewindReader :=
  { rawReader := src, buf := [], bufReadIdx := 0, rewound := false,
    buffering := false, bufferSize := 0, readIdx := idx }

set_option maxRecDepth 4000 in
/-- C2: with 200 bytes available, Discard 128 reads nothing from the source
(the 128-chunk loop runs zero times and the zero remainder skips the final
read) yet reports 128 bytes skipped and advances the cursor by 128; and
Seek 18 from cursor 0 consumes the 18 bytes but leaves the cursor at 36,
because Discard adds the count to readIdx again after its internal Read
already did. -/
theorem discard_seek_cursor_divergence :
    ((mkReader (List.replicate 200 7) 0).Discard 128).1 = 128 ∧
    ((mkReader (List.replicate 200 7) 0).Discard 128).2.1 = none ∧
    ((mkReader (List.replicate 200 7) 0).Discard 128).2.2.rawReader.length = 200 ∧
    ((mkReader (List.replicate 200 7) 0).Discard 128).2.2.readIdx = 128 ∧
    ((mkReader (List.replicate 200 7) 0).Seek 18 0).2.1 = none ∧
    ((mkReader (List.replicate 200 7) 0).Seek 18 0).2.2.rawReader.length = 182 ∧
    ((mkReader (List.replicate 200 7) 0).Seek 18 0).2.2.readIdx = 36 := by
  decide

/-- C10: SetBufferSize 0 on a reader that is not buffering takes the panic
branch (modelled as none), and from an active buffering session it succeeds
and leaves buffering off. -/
theorem setBufferSize_zero_contract (r : RewindReader) :
    (r.buffering = false → r.SetBufferSize 0 = none) ∧
    (r.buffering = true → ∃ r₁, r.SetBufferSize 0 = some r₁ ∧ r₁.buffering = false) := by
  constructor
  · intro h
    simp [RewindReader.SetBufferSize, h]
  · intro h
    refine ⟨{ r with buffering := false, buf := [], bufReadIdx := 0, bufferSize := 0 }, ?_, rfl⟩
    simp [RewindReader.SetBufferSize, h]

theorem setBufferSize_zero_contract_witness :
    (RewindReader.SetBufferSize (mkReader [] 0) 0 = none) ∧
    (∃ r₁, RewindReader.SetBufferSize { mkReader [] 0 with buffering := true } 0 = some r₁ ∧
      r₁.buffering = false) :=
  ⟨(setBufferSize_zero_contract (mkReader [] 0)).1 rfl,
   (setBufferSize_zero_contract { mkReader [] 0 with buffering := true }).2 rfl⟩

/-! ### Driving fastFileReader through an entry body. -/

lemma FastFileReader.read_one_body (r : FastFileReader) (a : Nat) (tl : Bytes)
    (herr : r.err = none) (hrew : r.raw.rewound = false) (hbuf : r.raw.buffering = false)
    (hraw : r.raw.rawReader = a :: tl) (hlim : 0 < r.limitN) :
    r.Read 1 = some ([a], none,
      { r with
        raw := { r.raw with
                 rewound := false,
                 rawReader := tl,
                 readIdx := r.raw.readIdx + 1 },
        limitN := r.limitN - 1,
        hashed := r.hashed ++ [a],
        nread := r.nread + 1 }) := by
  have htn : 1 ≤ r.limitN.toNat := by omega
  simp only [FastFileReader.Read, herr, ne_eq, not_true_eq_false, if_false,
    FastFileReader.rcRead, if_neg (by omega : ¬ r.limitN ≤ 0),
    Nat.min_eq_left htn, RewindReader.Read, RewindReader.read, hrew, hbuf, hraw,
    rawRead, List.isEmpty_cons, Bool.false_eq_true, if_false, false_and,
    List.take_succ_cons, List.take_zero, List.drop_succ_cons, List.drop_zero]
  simp [hbuf]

lemma FastFileReader.run_steps (L : Bytes) :
    ∀ (r : FastFileReader) (rest : Bytes) (fuel : Nat),
      r.err = none → r.raw.rewound = false → r.raw.buffering = false →
      r.raw.rawReader = L ++ rest → r.limitN = (L.length : Int) →
      r.run (L.length + fuel) =
        FastFileReader.run
          { r with
            raw := { r.raw with
                     rewound := false,
                     rawReader := rest,
                     readIdx := r.raw.readIdx + L.length },
            limitN := 0,
            hashed := r.hashed ++ L,
            nread := r.nread + L.length }
          fuel := by
  induction L with
  | nil =>
    intro r rest fuel herr hrew hbuf hraw hlim
    obtain ⟨⟨rr, bf, bi, rw, bu, bs, ri⟩, lim, hsh, nr, dof, fc, fsz, er⟩ := r
    simp only [List.nil_append] at hraw
    simp only [List.length_nil, Nat.cast_zero] at hlim
    simp at hrew hbuf
    subst hraw hlim hrew hbuf
    simp
  | cons a L ih =>
    intro r rest fuel herr hrew hbuf hraw hlim
    have hstep := r.read_one_body a (L ++ rest) herr hrew hbuf hraw
      (by rw [hlim, List.length_cons]; push_cast; omega)
    have hL : (a :: L).length + fuel = (L.length + fuel) + 1 := by
      simp [List.length_cons]; omega
    rw [hL]
    simp only [FastFileReader.run, hstep]
    rw [ih { r with
             raw := { r.raw with
                      rewound := false,
                      rawReader := L ++ rest,
                      readIdx := r.raw.readIdx + 1 },
             limitN := r.limitN - 1,
             hashed := r.hashed ++ [a],
             nread := r.nread + 1 }
          rest fuel herr rfl hbuf rfl
          (by rw [hlim, List.length_cons]; push_cast; ring)]
    congr 1
    simp only [FastFileReader.mk.injEq, RewindReader.mk.injEq, List.length_cons,
      List.append_assoc, List.singleton_append]
    push_cast
    and_intros <;> first | rfl | ring_nf

/-! ### Replay behaviour of RewindReader. -/

/-- A single-byte Read that is not replaying the buffer delivers the head
of the raw source. -/
lemma Read_one_live (r : RewindReader) (a : Nat) (tl : Bytes)
    (hcond : ¬(r.rewound = true ∧ r.bufReadIdx < r.buf.length))
    (hsrc : r.rawReader = a :: tl) :
    r.Read 1 = ([a], none, { r with
      rewound := false,
      rawReader := tl,
      buf := if r.buffering then r.buf ++ [a] else r.buf,
      readIdx := r.readIdx + 1 }) := by
  unfold RewindReader.Read RewindReader.read
  rw [if_neg hcond]
  simp [rawRead, hsrc]

/-- A single-byte Read that is replaying the buffer delivers the byte at the
buffer read index. -/
lemma Read_one_replay (r : RewindReader)
    (hrew : r.rewound = true) (hidx : r.bufReadIdx < r.buf.length) :
    r.Read 1 = ([r.buf.get ⟨r.bufReadIdx, hidx⟩], none,
      { r with bufReadIdx := r.bufReadIdx + 1, readIdx := r.readIdx + 1 }) := by
  have hdrop := List.drop_eq_getElem_cons hidx
  have htake : (r.buf.drop r.bufReadIdx).take 1 = [r.buf.get ⟨r.bufReadIdx, hidx⟩] := by
    rw [hdrop]
    rfl
  unfold RewindReader.Read RewindReader.read
  rw [if_pos (And.intro hrew hidx)]
  dsimp only
  rw [htake]
  rfl

/-- A read on an exhausted, non-replaying reader reports end of file. -/
lemma Read_eof (r : RewindReader) (k : Nat)
    (hcond : ¬(r.rewound = true ∧ r.bufReadIdx < r.buf.length))
    (hsrc : r.rawReader = []) :
    (r.Read k).1 = [] ∧ (r.Read k).2.1 = some .eof := by
  simp [RewindReader.Read, RewindReader.read, if_neg hcond, rawRead, hsrc]

lemma drain_live : ∀ (fuel : Nat) (r : RewindReader),
    (r.rewound = false ∨ r.buf.length ≤ r.bufReadIdx) →
    RewindReader.drain r fuel = r.rawReader.take fuel
  | 0, r, _ => by simp [RewindReader.drain]
  | fuel + 1, r, hinv => by
    have hcond : ¬(r.rewound = true ∧ r.bufReadIdx < r.buf.length) := by
      rcases hinv with h | h
      · simp [h]
      · exact fun hc => absurd hc.2 (by omega)
    match hsrc : r.rawReader with
    | [] =>
      have h2 := Read_eof r 1 hcond hsrc
      simp [RewindReader.drain, h2.2, hsrc]
    | a :: tl =>
      rw [RewindReader.drain, Read_one_live r a tl hcond hsrc]
      dsimp only
      rw [drain_live fuel _ (Or.inl rfl)]
      simp [hsrc]

lemma drain_replay : ∀ (fuel : Nat) (r : RewindReader), r.rewound = true →
    RewindReader.drain r fuel = (r.buf.drop r.bufReadIdx ++ r.rawReader).take fuel
  | 0, r, _ => by simp [RewindReader.drain]
  | fuel + 1, r, hrew => by
    by_cases hidx : r.bufReadIdx < r.buf.length
    · rw [RewindReader.drain, Read_one_replay r hrew hidx]
      dsimp only
      rw [drain_replay fuel { r with bufReadIdx := r.bufReadIdx + 1, readIdx := r.readIdx + 1 } hrew]
      dsimp only
      simp only [List.drop_eq_getElem_cons hidx, List.cons_append, List.take_succ_cons,
        List.nil_append, List.get_eq_getElem]
    · have hdrop : r.buf.drop r.bufReadIdx = [] := List.drop_eq_nil_of_le (by omega)
      have hcond : ¬(r.rewound = true ∧ r.bufReadIdx < r.buf.length) := fun hc => hidx hc.2
      match hsrc : r.rawReader with
      | [] =>
        have h2 := Read_eof r 1 hcond hsrc
        simp [RewindReader.drain, h2.2, hsrc, hdrop]
      | a :: tl =>
        rw [RewindReader.drain, Read_one_live r a tl hcond hsrc]
        dsimp only
        rw [drain_live fuel _ (Or.inl rfl)]
        simp [hsrc, hdrop]

lemma readN_session : ∀ (n : Nat) (r : RewindReader),
    (r.rewound = false ∨ r.buf.length ≤ r.bufReadIdx) → r.buffering = true →
    n ≤ r.rawReader.length →
    ∃ r₁, RewindReader.readN r n = (r.rawReader.take n, r₁) ∧
      r₁.buf = r.buf ++ r.rawReader.take n ∧
      r₁.rawReader = r.rawReader.drop n ∧
      r₁.bufferSize = r.bufferSize ∧
      r₁.buffering = true ∧
      (r₁.rewound = false ∨ r₁.buf.length ≤ r₁.bufReadIdx)
  | 0, r, hinv, hbuf, _ => ⟨r, by simp [RewindReader.readN], by simp, by simp, rfl, hbuf, hinv⟩
  | n + 1, r, hinv, hbuf, hn => by
    have hcond : ¬(r.rewound = true ∧ r.bufReadIdx < r.buf.length) := by
      rcases hinv with h | h
      · simp [h]
      · exact fun hc => absurd hc.2 (by omega)
    match hsrc : r.rawReader with
    | [] => simp [hsrc] at hn
    | a :: tl =>
      have hn2 : n ≤ tl.length := by
        rw [hsrc] at hn
        simpa using hn
      obtain ⟨r₁, heq, hb, hr, hs, hbu, hi⟩ :=
        readN_session n { r with
          rewound := false,
          rawReader := tl,
          buf := if r.buffering then r.buf ++ [a] else r.buf,
          readIdx := r.readIdx + 1 }
          (Or.inl rfl) hbuf hn2
      dsimp only at heq hb hr hs
      refine ⟨r₁, ?_, ?_, ?_, ?_, hbu, hi⟩
      · rw [RewindReader.readN, Read_one_live r a tl hcond hsrc]
        dsimp only
        rw [heq]
        simp [hsrc]
      · rw [hb]
        simp [hsrc, hbuf, List.append_assoc]
      · rw [hr]
        simp [hsrc]
      · rw [hs]

/-- C6: from any non-buffering reader state, entering a buffering session
with SetBufferSize k (k > 0), reading n available bytes, and calling
Rewind makes subsequent reads reproduce exactly those n bytes once more, in
order, after which the stream delivers the live bytes that follow them:
draining after the rewind reproduces the source from the session start. -/
theorem rewind_replays_session_bytes (r : RewindReader) (k n fuel : Nat)
    (hbuf : r.buffering = false) (hk : 0 < k) (hn : n ≤ r.rawReader.length) :
    ∃ r₁ r₂ r₃, r.SetBufferSize k = some r₁ ∧
      RewindReader.readN r₁ n = (r.rawReader.take n, r₂) ∧
      r₂.Rewind = some r₃ ∧
      RewindReader.drain r₃ fuel = r.rawReader.take fuel := by
  have hset : r.SetBufferSize k = some { r with
      buffering := true,
      bufReadIdx := 0,
      bufferSize := k,
      buf := [] } := by
    unfold RewindReader.SetBufferSize
    rw [if_neg (by omega), if_neg (by simp [hbuf])]
  obtain ⟨r₂, heq, hb, hr, hs, _, _⟩ :=
    readN_session n { r with
      buffering := true,
      bufReadIdx := 0,
      bufferSize := k,
      buf := [] }
      (Or.inr (by simp)) rfl (by simpa using hn)
  dsimp only at heq hb hr hs
  simp only [List.nil_append] at hb
  have hrw : r₂.Rewind = some { r₂ with
      rewound := true,
      bufReadIdx := 0,
      readIdx := r₂.readIdx - r₂.buf.length } := by
    unfold RewindReader.Rewind
    rw [if_neg (by rw [hs]; omega)]
  refine ⟨_, r₂, _, hset, heq, hrw, ?_⟩
  rw [drain_replay fuel { r₂ with
      rewound := true,
      bufReadIdx := 0,
      readIdx := r₂.readIdx - r₂.buf.length } rfl]
  dsimp only
  simp only [List.drop_zero]
  rw [hb, hr]
  simp [List.take_append_drop]

theorem rewind_replays_session_bytes_witness :
    ∃ r₁ r₂ r₃, (mkReader [1, 2, 3, 4, 5] 0).SetBufferSize 2 = some r₁ ∧
      RewindReader.readN r₁ 3 = ([1, 2, 3], r₂) ∧
      r₂.Rewind = some r₃ ∧
      RewindReader.drain r₃ 5 = [1, 2, 3, 4, 5] :=
  rewind_replays_session_bytes (mkReader [1, 2, 3, 4, 5] 0) 2 3 5 rfl (by decide) (by decide)


/-! ### Descriptor sniffing (C8). -/

lemma Seek_self (r : RewindReader) : r.Seek r.readIdx 0 = (r.readIdx, none, r) := by
  unfold RewindReader.Seek
  rw [if_neg (by simp), if_neg (by omega)]
  simp

lemma SetBufferSize_on (r : RewindReader) (k : Nat) (hk : k ≠ 0) (hbuf : r.buffering = false) :
    r.SetBufferSize k = some { r with
      buffering := true,
      bufReadIdx := 0,
      bufferSize := k,
      buf := [] } := by
  unfold RewindReader.SetBufferSize
  rw [if_neg hk, if_neg (by simp [hbuf])]

lemma Read_live (r : RewindReader) (k : Nat)
    (hcond : ¬(r.rewound = true ∧ r.bufReadIdx < r.buf.length))
    (hne : r.rawReader ≠ []) :
    r.Read k = (r.rawReader.take k, none, { r with
      rewound := false,
      rawReader := r.rawReader.drop k,
      buf := if r.buffering then r.buf ++ r.rawReader.take k else r.buf,
      readIdx := r.readIdx + (r.rawReader.take k).length }) := by
  unfold RewindReader.Read RewindReader.read
  rw [if_neg hcond]
  simp [rawRead, hne]

lemma readFullGo_full (r : RewindReader) (k fuel : Nat) (acc : Bytes)
    (hacc : acc.length = k) :
    readFullGo r k fuel acc = (acc, none, r) := by
  cases fuel with
  | zero =>
    unfold readFullGo
    rw [if_pos (by omega)]
  | succ f =>
    unfold readFullGo
    rw [if_neg (by omega)]

lemma readFull_one_shot (r r₁ : RewindReader) (k : Nat) (out : Bytes)
    (hk : 0 < k) (hread : r.Read k = (out, none, r₁)) (hout : out.length = k) :
    readFull r k = (out, none, r₁) := by
  unfold readFull readFullGo
  rw [if_pos (by simpa using hk)]
  simp only [List.length_nil, Nat.sub_zero, hread]
  simp only [List.nil_append]
  exact readFullGo_full r₁ k k out hout

lemma Rewind_on (r : RewindReader) (h : r.bufferSize ≠ 0) :
    r.Rewind = some { r with
      rewound := true,
      bufReadIdx := 0,
      readIdx := r.readIdx - r.buf.length } := by
  unfold RewindReader.Rewind
  rw [if_neg h]

/-- readDataDescriptor when the shared cursor already sits at the descriptor
offset and the next four bytes carry the local-file-header or central
directory header signature: the 16 peeked bytes are rewound, the cursor is
restored, and no error is reported. -/
lemma readDataDescriptor_sniff (raw : RewindReader) (after : Bytes) (crc : Nat)
    (hrew : raw.rewound = false) (hbuf : raw.buffering = false)
    (hsrc : raw.rawReader = after) (hlen : 16 ≤ after.length)
    (hsig : le32 (after.take 4) = fileHeaderSignature ∨
            le32 (after.take 4) = directoryHeaderSignature) :
    FastFileReader.readDataDescriptor raw raw.readIdx crc = some (none, { raw with
      rewound := true,
      buffering := false,
      bufferSize := 16,
      buf := after.take 16,
      bufReadIdx := 0,
      rawReader := after.drop 16 }) := by
  have htake_len : (after.take 16).length = 16 := List.length_take_of_le hlen
  have hne : raw.rawReader ≠ [] := by
    rw [hsrc]
    intro h
    rw [h] at hlen
    simp at hlen
  have hread : RewindReader.Read { raw with
      buffering := true,
      bufReadIdx := 0,
      bufferSize := 16,
      buf := [] } 16 = (after.take 16, none, { raw with
      rewound := false,
      rawReader := after.drop 16,
      buffering := true,
      bufReadIdx := 0,
      bufferSize := 16,
      buf := after.take 16,
      readIdx := raw.readIdx + ((after.take 16).length : Int) }) := by
    rw [Read_live _ 16 (by simp [hrew]) (by simpa using hne)]
    dsimp only
    rw [hsrc]
    simp
  have hfull := readFull_one_shot _ _ 16 (after.take 16) (by omega) hread htake_len
  have htt : (after.take 16).take 4 = after.take 4 := by
    rw [List.take_take]
    norm_num
  unfold FastFileReader.readDataDescriptor dataDescriptorLen
  rw [Seek_self]
  dsimp only
  rw [SetBufferSize_on raw 16 (by omega) hbuf]
  dsimp only
  rw [hfull]
  dsimp only
  rw [htt]
  rw [if_pos (by
    rcases hsig with h | h <;> rw [h] <;> exact ⟨by decide, by simp⟩)]
  rw [Rewind_on { raw with
      rewound := false,
      rawReader := after.drop 16,
      buffering := true,
      bufReadIdx := 0,
      bufferSize := 16,
      buf := after.take 16,
      readIdx := raw.readIdx + ((after.take 16).length : Int) } (by norm_num)]
  dsimp only [RewindReader.StopBuffering]
  rw [Option.some.injEq, Prod.mk.injEq]
  refine ⟨rfl, ?_⟩
  rw [RewindReader.mk.injEq]
  refine ⟨rfl, rfl, rfl, rfl, rfl, rfl, ?_⟩
  simp only [htake_len]
  push_cast
  ring

/-- The end-of-body Read of fastFileReader for an entry with a trailing
descriptor offset equal to the current cursor, when the peeked four bytes
carry a next-record signature and the accumulated checksum matches: the
read reports end of stream (no checksum error), and the shared reader is
left rewound with the peeked bytes ready for replay. -/
lemma FastFileReader.read_eof_descriptor_sniff (r : FastFileReader) (after : Bytes)
    (herr : r.err = none) (hlim : r.limitN ≤ 0)
    (hnread : r.nread = r.fUncompressedSize)
    (hrew : r.raw.rewound = false) (hbuf : r.raw.buffering = false)
    (hsrc : r.raw.rawReader = after) (hlen : 16 ≤ after.length)
    (hdesc : r.descOff = r.raw.readIdx) (hdpos : 0 < r.descOff)
    (hsig : le32 (after.take 4) = fileHeaderSignature ∨
            le32 (after.take 4) = directoryHeaderSignature)
    (hcrc : crc32 r.hashed = r.fCRC32) :
    r.Read 1 = some ([], some .eof, { r with
      raw := { r.raw with
               rewound := true,
               buffering := false,
               bufferSize := 16,
               buf := after.take 16,
               bufReadIdx := 0,
               rawReader := after.drop 16 },
      err := some .eof }) := by
  have hsniff := readDataDescriptor_sniff r.raw after r.fCRC32 hrew hbuf hsrc hlen hsig
  unfold FastFileReader.Read
  rw [if_neg (by simp [herr])]
  unfold FastFileReader.rcRead
  rw [if_pos hlim]
  dsimp only
  rw [if_pos (show (Err.eof = Err.eof) from rfl)]
  rw [if_neg (show ¬(r.nread + ([] : Bytes).length ≠ r.fUncompressedSize) by simp [hnread])]
  rw [if_pos (show (0 : Int) < r.descOff from hdpos)]
  rw [show (r.descOff : Int) = r.raw.readIdx from hdesc]
  rw [hsniff]
  dsimp only
  rw [if_neg (show ¬(crc32 (r.hashed ++ []) ≠ r.fCRC32) by simp [hcrc])]
  rw [Option.some.injEq, Prod.mk.injEq, Prod.mk.injEq]
  refine ⟨rfl, rfl, ?_⟩
  rw [FastFileReader.mk.injEq]
  refine ⟨rfl, rfl, by simp, by simp, rfl, rfl, rfl, rfl⟩

/-- C1 (amended): for a stored, unencrypted entry with no trailing
descriptor (flag bit 3 clear, hence descOff = 0) whose declared CRC-32 is
the checksum of the true body and is nonzero, opening at the body start and
fully reading a copy of the body with any single corrupted byte ends with a
checksum error. -/
theorem corrupted_byte_yields_checksum_error
    (pre suf rest : Bytes) (b b' : Nat) (idx : Int)
    (hpre : ∀ x ∈ pre, x < 256) (hsuf : ∀ x ∈ suf, x < 256)
    (hb : b < 256) (hb' : b' < 256) (hne : b ≠ b')
    (hcrc : crc32 (pre ++ b :: suf) ≠ 0) :
    FastFileReader.runErr
      (openFastFileReader (mkReader ((pre ++ b' :: suf) ++ rest) idx) 0 0 0
        (crc32 (pre ++ b :: suf)) (pre ++ b' :: suf).length (pre ++ b' :: suf).length)
      ((pre ++ b' :: suf).length + 1)
      = some (some .errChecksum) := by
  unfold FastFileReader.runErr
  rw [FastFileReader.run_steps (pre ++ b' :: suf) _ rest 1 rfl rfl rfl rfl rfl]
  have hcrcne : crc32 (pre ++ b' :: suf) ≠ crc32 (pre ++ b :: suf) :=
    Ne.symm (crc32_single_byte_corruption pre suf b b' hpre hsuf hb hb' hne)
  simp [FastFileReader.run, FastFileReader.Read, FastFileReader.rcRead,
    openFastFileReader, mkReader, hcrc, hcrcne]

theorem corrupted_byte_yields_checksum_error_witness :
    FastFileReader.runErr
      (openFastFileReader (mkReader [2] 0) 0 0 0 (crc32 [1]) 1 1) 2
      = some (some .errChecksum) :=
  corrupted_byte_yields_checksum_error [] [] [] 1 2 0 (by simp) (by simp)
    (by decide) (by decide) (by decide) (by decide)

/-- C1 (counterexample to the claim as stated): the four-byte body
157, 10, 217, 109 has CRC-32 equal to 0, so a consistent unencrypted
no-descriptor entry for it declares checksum 0; corrupting its first byte
to 156 makes the full read end in plain end-of-stream with no checksum
error, because the comparison is skipped whenever the declared checksum is
zero (fast_reader.go line 234). -/
theorem zero_crc_corruption_undetected :
    crc32 [157, 10, 217, 109] = 0 ∧
    (156 : Nat) ≠ 157 ∧
    FastFileReader.runErr
      (openFastFileReader (mkReader [156, 10, 217, 109] 0) 0 0 0
        (crc32 [157, 10, 217, 109]) 4 4) 5
      = some (some .eof) ∧
    Err.eof ≠ Err.errChecksum := by
  decide


/-- C8 (amended): for an entry with flag bit 3 set whose read reaches the
descriptor offset with the shared cursor aligned there, when the 4 bytes at
that offset equal the local-file-header signature or the central-directory
header signature (the record that actually follows the last entry), the
reader treats the entry as having no trailing descriptor: the peeked bytes
are logically rewound so the cursor is unchanged and subsequent reads
replay them untouched for the next parse, descriptor validation is skipped,
and the read ends in end-of-stream with no checksum error provided the
accumulated CRC-32 matches the entry's declared checksum. -/
theorem descriptor_sniffing_rewinds_and_skips (r : FastFileReader) (body after : Bytes)
    (herr : r.err = none) (hrew : r.raw.rewound = false) (hbuf : r.raw.buffering = false)
    (hraw : r.raw.rawReader = body ++ after) (hlim : r.limitN = (body.length : Int))
    (hnread : r.nread = 0) (hsize : r.fUncompressedSize = body.length)
    (hhashed : r.hashed = [])
    (hdesc : r.descOff = r.raw.readIdx + (body.length : Int)) (hdpos : 0 < r.descOff)
    (hlen : 16 ≤ after.length)
    (hsig : le32 (after.take 4) = fileHeaderSignature ∨
            le32 (after.take 4) = directoryHeaderSignature)
    (hcrc : crc32 body = r.fCRC32) :
    ∃ s, r.run (body.length + 1) = some (some .eof, s) ∧
      s.raw.readIdx = r.raw.readIdx + (body.length : Int) ∧
      s.raw.rewound = true ∧ s.raw.bufReadIdx = 0 ∧
      ∀ f, RewindReader.drain s.raw f = after.take f := by
  rw [FastFileReader.run_steps body r after 1 herr hrew hbuf hraw hlim]
  have hstep := FastFileReader.read_eof_descriptor_sniff
    { r with
      raw := { r.raw with
               rewound := false,
               rawReader := after,
               readIdx := r.raw.readIdx + (body.length : Int) },
      limitN := 0,
      hashed := r.hashed ++ body,
      nread := r.nread + body.length }
    after herr (le_refl 0)
    (by dsimp only; omega)
    rfl hbuf rfl hlen hdesc hdpos hsig
    (by dsimp only; rw [hhashed]; simpa using hcrc)
  refine ⟨{ r with
      raw := { r.raw with
               rewound := true,
               buffering := false,
               bufferSize := 16,
               buf := after.take 16,
               bufReadIdx := 0,
               rawReader := after.drop 16,
               readIdx := r.raw.readIdx + (body.length : Int) },
      limitN := 0,
      hashed := r.hashed ++ body,
      nread := r.nread + body.length,
      err := some .eof }, ?_, rfl, rfl, rfl, ?_⟩
  · simp only [FastFileReader.run, hstep]
  · intro f
    rw [drain_replay f { r.raw with
        rewound := true,
        buffering := false,
        bufferSize := 16,
        buf := after.take 16,
        bufReadIdx := 0,
        rawReader := after.drop 16,
        readIdx := r.raw.readIdx + (body.length : Int) } rfl]
    dsimp only
    simp [List.take_append_drop]

theorem descriptor_sniffing_rewinds_and_skips_witness :
    ∃ s, (openFastFileReader
        (mkReader ([7] ++ ([80, 75, 3, 4] ++ List.replicate 12 0)) 30) 0 0 8
        (crc32 [7]) 1 1).run 2 = some (some .eof, s) ∧
      s.raw.readIdx = 30 + (1 : Int) ∧
      s.raw.rewound = true ∧ s.raw.bufReadIdx = 0 ∧
      ∀ f, RewindReader.drain s.raw f = ([80, 75, 3, 4] ++ List.replicate 12 0).take f :=
  descriptor_sniffing_rewinds_and_skips
    (openFastFileReader (mkReader ([7] ++ ([80, 75, 3, 4] ++ List.replicate 12 0)) 30)
      0 0 8 (crc32 [7]) 1 1)
    [7] ([80, 75, 3, 4] ++ List.replicate 12 0)
    rfl rfl rfl rfl rfl rfl rfl rfl (by decide) (by decide) (by decide)
    (Or.inl (by decide)) (by decide)

/-- C8 (counterexample to the claim as stated), two instances.  First: the
4 bytes at the descriptor offset equal the next local-file-header signature
(claim antecedent holds) but the declared checksum differs from the
accumulated one, and the read reports a checksum error, contradicting
"reports no checksum error for this entry".  Second: the 4 bytes equal the
central-directory-end signature, which the code does not treat as the
no-descriptor case: it consumes all 24 bytes of the descriptor window
(none are left unread) and reports a checksum error even though the
accumulated CRC-32 matches the declared one. -/
theorem descriptor_sniffing_counterexample :
    (le32 [80, 75, 3, 4] = fileHeaderSignature ∧
      FastFileReader.runErr (openFastFileReader
        (mkReader ([7] ++ ([80, 75, 3, 4] ++ List.replicate 12 0)) 30) 0 0 8
        (crc32 [9]) 1 1) 2 = some (some .errChecksum)) ∧
    (le32 [80, 75, 5, 6] = directoryEndSignature ∧
      crc32 [7] = crc32 [7] ∧
      FastFileReader.runErr (openFastFileReader
        (mkReader ([7] ++ ([80, 75, 5, 6] ++ List.replicate 20 0)) 30) 0 0 8
        (crc32 [7]) 1 1) 2 = some (some .errChecksum) ∧
      ((openFastFileReader
        (mkReader ([7] ++ ([80, 75, 5, 6] ++ List.replicate 20 0)) 30) 0 0 8
        (crc32 [7]) 1 1).run 2).map (fun x => x.2.raw.rawReader.length) = some 0) := by
  decide



/-! ### Strong-encryption decryption pipeline (fast_crypto.go). -/

/-- Modelled from the spec: aesKeyLen maps the entry's declared encryption
strength to the cipher key length (16/24/32 bytes for strengths 1/2/3 and 0
otherwise); the declaration lives in this repository outside src/. -/
def aesKeyLen (strength : Nat) : Nat :=
  if strength = 1 then 16 else if strength = 2 then 24
  else if strength = 3 then 32 else 0

/-- Modelled from the spec: checkPasswordVerification compares the computed
2-byte verification value against the one read from the stream; the
declaration lives in this repository outside src/. -/
def checkPasswordVerification (pwv pwvv : Bytes) : Bool := pwv = pwvv

/-- subtle.ConstantTimeCompare: 1 when the two byte strings have equal
length and contents, 0 otherwise.  Only the functional result is modelled;
that the comparison runs in constant time is a timing property of the
library routine itself. -/
def constantTimeCompare (x y : Bytes) : Nat :=
  if x.length = y.length ∧ x = y then 1 else 0

/-- int64(u) for a uint64-typed Go expression: wrap modulo 2^64, then
reinterpret as a signed 64-bit value. -/
def int64ofUint64 (u : Nat) : Int :=
  if u % 2 ^ 64 < 2 ^ 63 then ((u % 2 ^ 64 : Nat) : Int)
  else ((u % 2 ^ 64 : Nat) : Int) - 2 ^ 64

/-- The FileHeader fields the decryption path consumes (the full header is
declared in this repository outside src/); pw is the password() result. -/
structure FileHeader where
  CRC32 : Nat
  UncompressedSize64 : Nat
  CompressedSize64 : Nat
  Flags : Nat
  aesStrength : Nat
  pw : Bytes
  deriving DecidableEq, Repr

/-- fastAuthReader state (fast_crypto.go lines 61-68).  The HMAC-SHA1
accumulator keyed by the authentication key is abstract: its state is the
list of bytes written to it (macWritten), and the Read operation takes the
keyed tag function hmacTag as the external collaborator. -/
structure FastAuthReader where
  dataRemaining : Int
  raw : RewindReader
  authOff : Int
  macWritten : Bytes
  err : Option Err
  auth : Bool
  deriving DecidableEq, Repr

namespace FastAuthReader

/-- a.data.Read: io.LimitReader(rewindReader, dataLen). -/
def dataRead (a : FastAuthReader) (k : Nat) : Bytes × Option Err × FastAuthReader :=
  if a.dataRemaining ≤ 0 then ([], some .eof, a)
  else
    let kk := Min.min k a.dataRemaining.toNat
    let (out, e, raw₁) := a.raw.Read kk
    (out, e, { a with raw := raw₁, dataRemaining := a.dataRemaining - out.length })

/-- io.Copy(ab, io.LimitReader(raw, n)): read until the limit or end of
file, collecting the bytes; fuel bounds the loop and n + 1 is always
enough since every non-error read delivers at least one byte. -/
def copyLimitGo (r : RewindReader) (remaining : Int) (acc : Bytes) :
    Nat → Bytes × RewindReader
  | 0 => (acc, r)
  | fuel + 1 =>
    if remaining ≤ 0 then (acc, r)
    else
      let (out, e, r₁) := r.Read remaining.toNat
      match e with
      | some _ => (acc ++ out, r₁)
      | none => copyLimitGo r₁ (remaining - out.length) (acc ++ out) fuel

def copyLimit (r : RewindReader) (n : Nat) : Bytes × RewindReader :=
  copyLimitGo r (n : Int) [] (n + 1)

/-- fastAuthReader.checkAuthentication (fast_crypto.go lines 113-119):
truncate the computed tag to its first 10 bytes and compare using
subtle.ConstantTimeCompare, recording the outcome in auth. -/
def checkAuthentication (a : FastAuthReader) (hmacTag : Bytes → Bytes)
    (authcode : Bytes) : Bool × FastAuthReader :=
  let expectedAuthCode := (hmacTag a.macWritten).take 10
  let ok := constantTimeCompare expectedAuthCode authcode > 0
  (ok, { a with auth := ok })

/-- fastAuthReader.Read (fast_crypto.go lines 70-111): sticky stored error;
read bounded ciphertext; feed the raw ciphertext into the accumulator
(skipped on a non-EOF error, which returns early); at end of stream seek to
the trailer offset, copy up to 10 trailer bytes, require exactly 10
(ErrDecryption otherwise), and compare tags (ErrAuthentication on
mismatch); a clean authenticated end keeps the stored io.EOF. -/
def Read (a : FastAuthReader) (hmacTag : Bytes → Bytes) (k : Nat) :
    Bytes × Option Err × FastAuthReader :=
  if a.err ≠ none then ([], a.err, a)
  else
    let (out, e, a₁) := a.dataRead k
    match e with
    | none => (out, none, { a₁ with macWritten := a₁.macWritten ++ out })
    | some err =>
      if err ≠ .eof then (out, some err, { a₁ with err := some err })
      else
        let a₂ := { a₁ with err := some .eof, macWritten := a₁.macWritten ++ out }
        match a₂.raw.Seek a₂.authOff 0 with
        | (_, some serr, raw₁) =>
          (out, some serr, { a₂ with raw := raw₁, err := some serr })
        | (_, none, raw₁) =>
          let (ab, raw₂) := copyLimit raw₁ 10
          if ab.length ≠ 10 then
            (out, some .errDecryption, { a₂ with raw := raw₂, err := some .errDecryption })
          else
            let (ok, a₃) := ({ a₂ with raw := raw₂ }).checkAuthentication hmacTag ab
            if ok = false then
              (out, some .errAuthentication, { a₃ with err := some .errAuthentication })
            else (out, some .eof, a₃)

/-- Drive the authenticated reader with n single-byte reads. -/
def readN (a : FastAuthReader) (hmacTag : Bytes → Bytes) : Nat → FastAuthReader
  | 0 => a
  | n + 1 => ((a.Read hmacTag 1).2.2).readN hmacTag n

end FastAuthReader

/-- newFastDecryptionReader (fast_crypto.go lines 12-48): generateKeys is
the key-derivation collaborator (password, salt, keyLength) mapping to
(decryptionKey, authenticationKey, verificationValue); decStreamOk models
whether decryptStream returns a non-nil stream for the derived key.  The
outer none is a panic inside SetBufferSize/Rewind (unreachable from this
entry point); on success the result carries the derived decryption key and
the fastAuthReader that decryptStream wraps. -/
def newFastDecryptionReader
    (generateKeys : Bytes → Bytes → Nat → Bytes × Bytes × Bytes)
    (decStreamOk : Bytes → Bool)
    (src : Bytes) (header : FileHeader) :
    Option (Except Err (Bytes × FastAuthReader)) :=
  let rewindReader : RewindReader := mkReader src 0
  let keyLen := aesKeyLen header.aesStrength
  let saltLen := keyLen / 2
  if saltLen = 0 then some (.error .errDecryption)
  else
    match rewindReader.SetBufferSize (saltLen + 2) with
    | none => none
    | some r₁ =>
      match r₁.Read (saltLen + 2) with
      | (_, some e, _) => some (.error e)
      | (out, none, r₂) =>
        let saltpwvv := out ++ List.replicate (saltLen + 2 - out.length) 0
        match r₂.Rewind with
        | none => none
        | some r₃ =>
          let r₄ := r₃.StopBuffering
          let salt := saltpwvv.take saltLen
          let pwvv := (saltpwvv.drop saltLen).take 2
          let gk := generateKeys header.pw salt keyLen
          if checkPasswordVerification gk.2.2 pwvv = false then
            some (.error .errPassword)
          else
            let dataOff : Int := (saltLen : Int) + 2
            let dataLen : Int := int64ofUint64
              (header.CompressedSize64 + 2 ^ 64 - (saltLen + 2 + 10))
            let r₅ := (r₄.Seek dataOff 0).2.2
            let authOff := dataOff + dataLen
            let ar : FastAuthReader :=
              { dataRemaining := dataLen, raw := r₅, authOff := authOff,
                macWritten := [], err := none, auth := false }
            if decStreamOk gk.1 = false then some (.error .errDecryption)
            else some (.ok (gk.1, ar))



/-! ### Claims about the decryption pipeline. -/


lemma aesSaltLen_lt (s : Nat) : aesKeyLen s / 2 + 2 < 128 := by
  unfold aesKeyLen
  split
  · norm_num
  · split
    · norm_num
    · split <;> norm_num

lemma Read_replay_all (r : RewindReader) (k : Nat)
    (hrew : r.rewound = true) (hidx : r.bufReadIdx = 0)
    (hbuflen : r.buf.length = k) (hk : 0 < k) :
    r.Read k = (r.buf, none, { r with
      bufReadIdx := k,
      readIdx := r.readIdx + (k : Int) }) := by
  have htake : (r.buf.drop r.bufReadIdx).take k = r.buf := by
    rw [hidx, List.drop_zero]
    exact List.take_of_length_le (by omega)
  unfold RewindReader.Read RewindReader.read
  rw [if_pos (And.intro hrew (by omega))]
  dsimp only
  rw [htake, hidx, hbuflen]
  simp

lemma Seek_replay_all (r : RewindReader) (k : Nat)
    (hrew : r.rewound = true) (hidx : r.bufReadIdx = 0)
    (hbuflen : r.buf.length = k) (hk : 0 < k) (hk128 : k < 128)
    (hreadIdx : r.readIdx = 0) :
    r.Seek (k : Int) 0 = ((k : Int), none, { r with
      bufReadIdx := k,
      readIdx := 2 * (k : Int) }) := by
  have hread := Read_replay_all r k hrew hidx hbuflen hk
  unfold RewindReader.Seek
  rw [if_neg (by simp), if_neg (by omega)]
  dsimp only
  rw [if_pos (by rw [hreadIdx]; omega)]
  unfold RewindReader.Discard RewindReader.discard
  rw [show ((k : Int) - r.readIdx).toNat = k by rw [hreadIdx]; omega]
  rw [if_pos hk128]
  rw [hread]
  dsimp only
  rw [Prod.mk.injEq, Prod.mk.injEq]
  refine ⟨rfl, rfl, ?_⟩
  rw [RewindReader.mk.injEq]
  refine ⟨rfl, rfl, rfl, rfl, rfl, rfl, ?_⟩
  rw [hreadIdx, hbuflen]
  ring

lemma FastAuthReader.read_one_live (a : FastAuthReader) (hmacTag : Bytes → Bytes)
    (c : Nat) (tl : Bytes)
    (herr : a.err = none)
    (hcond : ¬(a.raw.rewound = true ∧ a.raw.bufReadIdx < a.raw.buf.length))
    (hsrc : a.raw.rawReader = c :: tl) (hrem : 0 < a.dataRemaining) :
    a.Read hmacTag 1 = ([c], none, { a with
      raw := { a.raw with
               rewound := false,
               rawReader := tl,
               buf := if a.raw.buffering then a.raw.buf ++ [c] else a.raw.buf,
               readIdx := a.raw.readIdx + 1 },
      dataRemaining := a.dataRemaining - 1,
      macWritten := a.macWritten ++ [c] }) := by
  have hstep := Read_one_live a.raw c tl hcond hsrc
  unfold FastAuthReader.Read FastAuthReader.dataRead
  rw [if_neg (by simp [herr])]
  rw [if_neg (by omega)]
  rw [Nat.min_eq_left (by omega)]
  dsimp only
  rw [hstep]
  dsimp only
  rfl

lemma FastAuthReader.readN_live (hmacTag : Bytes → Bytes) :
    ∀ (L : Bytes) (a : FastAuthReader) (rest : Bytes),
    a.err = none →
    (a.raw.rewound = false ∨ a.raw.buf.length ≤ a.raw.bufReadIdx) →
    a.raw.buffering = false →
    a.raw.rawReader = L ++ rest → a.dataRemaining = (L.length : Int) →
    ∃ a₁, a.readN hmacTag L.length = a₁ ∧
      a₁.macWritten = a.macWritten ++ L ∧
      a₁.err = none ∧ a₁.dataRemaining = 0 ∧ a₁.raw.rawReader = rest
  | [], a, rest, herr, hinv, hbuf, hraw, hrem =>
    ⟨a, rfl, by simp, herr, by simpa using hrem, by simpa using hraw⟩
  | c :: L, a, rest, herr, hinv, hbuf, hraw, hrem => by
    have hcond : ¬(a.raw.rewound = true ∧ a.raw.bufReadIdx < a.raw.buf.length) := by
      rcases hinv with h | h
      · simp [h]
      · exact fun hc => absurd hc.2 (by omega)
    have hstep := a.read_one_live hmacTag c (L ++ rest) herr hcond hraw
      (by rw [hrem]; simp)
    obtain ⟨a₁, heq, hmac, herr₁, hrem₁, hraw₁⟩ := readN_live hmacTag L
      { a with
        raw := { a.raw with
                 rewound := false,
                 rawReader := L ++ rest,
                 buf := if a.raw.buffering then a.raw.buf ++ [c] else a.raw.buf,
                 readIdx := a.raw.readIdx + 1 },
        dataRemaining := a.dataRemaining - 1,
        macWritten := a.macWritten ++ [c] }
      rest herr (Or.inl rfl) hbuf rfl
      (by dsimp only; rw [hrem, List.length_cons]; push_cast; ring)
    refine ⟨a₁, ?_, ?_, herr₁, hrem₁, hraw₁⟩
    · rw [show (c :: L).length = L.length + 1 from rfl]
      unfold FastAuthReader.readN
      rw [hstep]
      exact heq
    · rw [hmac]
      dsimp only
      simp



/-- C3: for every strong-encryption entry (valid strength, hence non-zero
salt length), when the verification value derived from the supplied
password differs from the stored 2-byte value, opening fails with the
password error.  The statement quantifies over the decryptStream
collaborator and over every continuation of the stream beyond the salt and
verifier, so the failure happens before any ciphertext byte is consumed and
before the decryption stream is constructed; the password error is distinct
from the authentication, format and decryption errors. -/
theorem password_mismatch_fails_before_decryption
    (generateKeys : Bytes → Bytes → Nat → Bytes × Bytes × Bytes)
    (decStreamOk : Bytes → Bool) (header : FileHeader) (head tail : Bytes)
    (hsalt : aesKeyLen header.aesStrength / 2 ≠ 0)
    (hplen : head.length = aesKeyLen header.aesStrength / 2 + 2)
    (hmismatch :
      (generateKeys header.pw (head.take (aesKeyLen header.aesStrength / 2))
          (aesKeyLen header.aesStrength)).2.2 ≠
        (head.drop (aesKeyLen header.aesStrength / 2)).take 2) :
    newFastDecryptionReader generateKeys decStreamOk (head ++ tail) header =
        some (.error .errPassword) ∧
      Err.errPassword ≠ Err.errAuthentication ∧
      Err.errPassword ≠ Err.errFormat ∧
      Err.errPassword ≠ Err.errDecryption := by
  refine ⟨?_, by decide, by decide, by decide⟩
  have hne : head ++ tail ≠ ([] : Bytes) := by
    intro h
    have h2 := congrArg List.length h
    simp [hplen] at h2
  have hr2 : RewindReader.Read
      (⟨head ++ tail, [], 0, false, true, aesKeyLen header.aesStrength / 2 + 2, 0⟩ :
        RewindReader)
      (aesKeyLen header.aesStrength / 2 + 2) =
      (head, none,
        (⟨tail, head, 0, false, true, aesKeyLen header.aesStrength / 2 + 2,
          (head.length : Int)⟩ : RewindReader)) := by
    rw [Read_live _ _ (by simp) (by simpa using hne)]
    rw [List.take_left' hplen, List.drop_left' hplen]
    simp
  unfold newFastDecryptionReader
  rw [if_neg hsalt]
  rw [SetBufferSize_on _ _ (by omega) rfl]
  dsimp only [mkReader]
  rw [hr2]
  dsimp only
  rw [Rewind_on
    (⟨tail, head, 0, false, true, aesKeyLen header.aesStrength / 2 + 2,
      (head.length : Int)⟩ : RewindReader) (by dsimp only; omega)]
  dsimp only
  rw [if_pos (by
    simp only [hplen, Nat.sub_self, List.replicate_zero, List.append_nil]
    unfold checkPasswordVerification
    exact decide_eq_false hmismatch)]


/-- C5 (amended): after the password is validated, the stream is rewound and
the peeked salt and 2-byte verifier bytes are re-consumed from the rewind
buffer by the forward seek to the ciphertext start (the buffer read index
ends at the buffer length), but they are excluded from the authenticated
span: the authentication accumulator is fed exactly the ciphertext bytes
that follow the salt and verifier. -/
theorem mac_covers_ciphertext_excluding_header
    (generateKeys : Bytes → Bytes → Nat → Bytes × Bytes × Bytes)
    (decStreamOk : Bytes → Bool) (hmacTag : Bytes → Bytes)
    (header : FileHeader) (salt pwvv cipher rest : Bytes)
    (hsalt : aesKeyLen header.aesStrength / 2 ≠ 0)
    (hsaltlen : salt.length = aesKeyLen header.aesStrength / 2)
    (hpwvvlen : pwvv.length = 2)
    (hmatch : (generateKeys header.pw salt (aesKeyLen header.aesStrength)).2.2 = pwvv)
    (hcsize : header.CompressedSize64 =
      aesKeyLen header.aesStrength / 2 + 2 + cipher.length + 10)
    (hsmall : cipher.length < 2 ^ 63)
    (hds : decStreamOk (generateKeys header.pw salt (aesKeyLen header.aesStrength)).1 = true) :
    ∃ ar, newFastDecryptionReader generateKeys decStreamOk
        ((salt ++ pwvv) ++ (cipher ++ rest)) header =
        some (.ok ((generateKeys header.pw salt (aesKeyLen header.aesStrength)).1, ar)) ∧
      ar.raw.buf = salt ++ pwvv ∧
      ar.raw.bufReadIdx = ar.raw.buf.length ∧
      ar.macWritten = [] ∧
      ∃ a₁, ar.readN hmacTag cipher.length = a₁ ∧ a₁.macWritten = cipher := by
  have hhead : (salt ++ pwvv).length = aesKeyLen header.aesStrength / 2 + 2 := by
    simp [hsaltlen, hpwvvlen]
  have hne : (salt ++ pwvv) ++ (cipher ++ rest) ≠ ([] : Bytes) := by
    intro h
    have h2 := congrArg List.length h
    simp only [List.length_append, List.length_nil] at h2
    omega
  have hr2 : RewindReader.Read
      (⟨(salt ++ pwvv) ++ (cipher ++ rest), [], 0, false, true,
        aesKeyLen header.aesStrength / 2 + 2, 0⟩ : RewindReader)
      (aesKeyLen header.aesStrength / 2 + 2) =
      (salt ++ pwvv, none,
        (⟨cipher ++ rest, salt ++ pwvv, 0, false, true,
          aesKeyLen header.aesStrength / 2 + 2,
          ((salt ++ pwvv).length : Int)⟩ : RewindReader)) := by
    rw [Read_live _ _ (by simp) (by simpa using hne)]
    rw [List.take_left' hhead, List.drop_left' hhead]
    simp
  have hdl : int64ofUint64 (header.CompressedSize64 + 2 ^ 64 -
      (aesKeyLen header.aesStrength / 2 + 2 + 10)) = (cipher.length : Int) := by
    unfold int64ofUint64
    have hmod : (header.CompressedSize64 + 2 ^ 64 -
        (aesKeyLen header.aesStrength / 2 + 2 + 10)) % 2 ^ 64 = cipher.length := by
      rw [hcsize]
      omega
    rw [hmod, if_pos hsmall]
  have hseek := Seek_replay_all
    (⟨cipher ++ rest, salt ++ pwvv, 0, true, false,
      aesKeyLen header.aesStrength / 2 + 2,
      ((salt ++ pwvv).length : Int) - ((salt ++ pwvv).length : Int)⟩ : RewindReader)
    (aesKeyLen header.aesStrength / 2 + 2)
    rfl rfl (by simpa using hhead) (by omega) (aesSaltLen_lt _)
    (by
      show ((salt ++ pwvv).length : Int) - ((salt ++ pwvv).length : Int) = 0
      omega)
  dsimp only at hseek
  refine ⟨⟨(cipher.length : Int),
    (⟨cipher ++ rest, salt ++ pwvv, aesKeyLen header.aesStrength / 2 + 2, true, false,
      aesKeyLen header.aesStrength / 2 + 2,
      2 * ((aesKeyLen header.aesStrength / 2 + 2 : Nat) : Int)⟩ : RewindReader),
    ((aesKeyLen header.aesStrength / 2 : Int) + 2) + (cipher.length : Int),
    [], none, false⟩, ?_, rfl, by simpa using hhead.symm, rfl, ?_⟩
  · unfold newFastDecryptionReader
    rw [if_neg hsalt]
    rw [SetBufferSize_on _ _ (by omega) rfl]
    dsimp only [mkReader]
    rw [hr2]
    dsimp only
    rw [Rewind_on
      (⟨cipher ++ rest, salt ++ pwvv, 0, false, true,
        aesKeyLen header.aesStrength / 2 + 2,
        ((salt ++ pwvv).length : Int)⟩ : RewindReader) (by dsimp only; omega)]
    dsimp only [RewindReader.StopBuffering]
    rw [if_neg (by
      simp only [hhead, Nat.sub_self, List.replicate_zero, List.append_nil]
      rw [List.take_left' hsaltlen, List.drop_left' hsaltlen,
        List.take_of_length_le (le_of_eq hpwvvlen), hmatch]
      simp [checkPasswordVerification])]
    simp only [hhead, Nat.sub_self, List.replicate_zero, List.append_nil]
    rw [show ((aesKeyLen header.aesStrength / 2 : Nat) : Int) + 2 =
      ((aesKeyLen header.aesStrength / 2 + 2 : Nat) : Int) by push_cast; ring]
    simp only [hhead] at hseek
    rw [hseek]
    dsimp only
    rw [hdl]
    rw [List.take_left' hsaltlen]
    rw [if_neg (by simp [hds])]
    rw [Option.some.injEq, Except.ok.injEq, Prod.mk.injEq]
    refine ⟨rfl, ?_⟩
    rw [FastAuthReader.mk.injEq]
    refine ⟨rfl, rfl, by push_cast; ring, rfl, rfl, rfl⟩
  · obtain ⟨a₁, heq, hmac, _, _, _⟩ := FastAuthReader.readN_live hmacTag cipher
      (⟨(cipher.length : Int),
        (⟨cipher ++ rest, salt ++ pwvv, aesKeyLen header.aesStrength / 2 + 2, true, false,
          aesKeyLen header.aesStrength / 2 + 2,
          2 * ((aesKeyLen header.aesStrength / 2 + 2 : Nat) : Int)⟩ : RewindReader),
        ((aesKeyLen header.aesStrength / 2 : Int) + 2) + (cipher.length : Int),
        [], none, false⟩ : FastAuthReader)
      rest rfl (Or.inr (by dsimp only; omega)) rfl rfl rfl
    exact ⟨a₁, heq, by rw [hmac]; simp⟩


theorem password_mismatch_fails_before_decryption_witness :
    newFastDecryptionReader (fun _ _ _ => (([5], [6], [9, 9]) : Bytes × Bytes × Bytes))
        (fun _ => true) [0, 1, 2, 3, 4, 5, 6, 7, 8, 9]
        (⟨0, 0, 0, 0, 1, []⟩ : FileHeader) = some (.error .errPassword) ∧
      Err.errPassword ≠ Err.errAuthentication ∧
      Err.errPassword ≠ Err.errFormat ∧
      Err.errPassword ≠ Err.errDecryption :=
  password_mismatch_fails_before_decryption
    (fun _ _ _ => (([5], [6], [9, 9]) : Bytes × Bytes × Bytes)) (fun _ => true)
    (⟨0, 0, 0, 0, 1, []⟩ : FileHeader) [0, 1, 2, 3, 4, 5, 6, 7, 8, 9] []
    (by decide) (by decide) (by decide)

/-- C4 (the code evaluated at a failing input): a well-formed strength-1
entry with 2 ciphertext bytes and an intact 10-byte trailer.  When the
bounded ciphertext stream is exhausted, the verification step's seek to the
trailer offset fails with the backward-seek error (the cursor was advanced
twice during the header skip, landing past the trailer offset), the stored
error is that seek error — distinct from the decryption-format error, the
authentication error and clean end of stream — and all 10 trailer bytes
are still unread in the underlying source. -/
theorem auth_trailer_seek_fails :
    (newFastDecryptionReader (fun _ _ _ => (([5], [6], [170, 187]) : Bytes × Bytes × Bytes))
        (fun _ => true)
        ([1, 2, 3, 4, 5, 6, 7, 8] ++ [170, 187] ++ ([42, 43] ++ List.replicate 10 9))
        (⟨0, 2, 22, 0, 1, []⟩ : FileHeader)).map
      (fun r => r.toOption.map (fun p =>
        ((((p.2.readN (fun _ => List.replicate 20 0) 2).Read
            (fun _ => List.replicate 20 0) 1).2.1),
         (((p.2.readN (fun _ => List.replicate 20 0) 2).Read
            (fun _ => List.replicate 20 0) 1).2.2.raw.rawReader))))
      = some (some (some .offsetLessThanReadIdx, [9, 9, 9, 9, 9, 9, 9, 9, 9, 9])) ∧
    Err.offsetLessThanReadIdx ≠ Err.errDecryption ∧
    Err.offsetLessThanReadIdx ≠ Err.errAuthentication ∧
    Err.offsetLessThanReadIdx ≠ Err.eof := by
  decide

/-- C5 (counterexample to the claim as stated): in a concrete pipeline with
verifier bytes 170, 187 and ciphertext 42, 43, the bytes fed to the
authentication accumulator over the whole ciphertext span are exactly
42, 43: the verifier bytes are not among them. -/
theorem verifier_bytes_not_authenticated :
    (newFastDecryptionReader (fun _ _ _ => (([5], [6], [170, 187]) : Bytes × Bytes × Bytes))
        (fun _ => true)
        ([1, 2, 3, 4, 5, 6, 7, 8] ++ [170, 187] ++ ([42, 43] ++ List.replicate 10 9))
        (⟨0, 2, 22, 0, 1, []⟩ : FileHeader)).map
      (fun r => r.toOption.map
        (fun p => (p.2.readN (fun _ => List.replicate 20 0) 2).macWritten))
      = some (some [42, 43]) ∧
    ¬(170 ∈ [42, 43]) ∧ ¬(187 ∈ [42, 43]) := by
  decide

theorem mac_covers_ciphertext_excluding_header_witness :
    ∃ ar, newFastDecryptionReader
        (fun _ _ _ => (([5], [6], [170, 187]) : Bytes × Bytes × Bytes)) (fun _ => true)
        (([1, 2, 3, 4, 5, 6, 7, 8] ++ [170, 187]) ++ ([42, 43] ++ List.replicate 10 9))
        (⟨0, 2, 22, 0, 1, []⟩ : FileHeader) = some (.ok ([5], ar)) ∧
      ar.raw.buf = [1, 2, 3, 4, 5, 6, 7, 8] ++ [170, 187] ∧
      ar.raw.bufReadIdx = ar.raw.buf.length ∧
      ar.macWritten = [] ∧
      ∃ a₁, ar.readN (fun _ => List.replicate 20 0) 2 = a₁ ∧ a₁.macWritten = [42, 43] :=
  mac_covers_ciphertext_excluding_header
    (fun _ _ _ => (([5], [6], [170, 187]) : Bytes × Bytes × Bytes)) (fun _ => true)
    (fun _ => List.replicate 20 0) (⟨0, 2, 22, 0, 1, []⟩ : FileHeader)
    [1, 2, 3, 4, 5, 6, 7, 8] [170, 187] [42, 43] (List.replicate 10 9)
    (by decide) (by decide) (by decide) (by decide) (by decide) (by decide) (by decide)


/-- Every error result of fastAuthReader.Read is stored in the returned
state. -/
lemma FastAuthReader.read_err_stored (a : FastAuthReader) (tag : Bytes → Bytes) (k : Nat)
    (out : Bytes) (e : Err) (a₁ : FastAuthReader)
    (h : a.Read tag k = (out, some e, a₁)) : a₁.err = some e := by
  unfold FastAuthReader.Read at h
  dsimp only at h
  repeat' split at h
  all_goals
    rw [Prod.mk.injEq, Prod.mk.injEq] at h
    obtain ⟨h1, h2, h3⟩ := h
  all_goals try cases h2
  all_goals try subst h3
  all_goals simp_all [FastAuthReader.checkAuthentication]

lemma FastAuthReader.read_of_err (a : FastAuthReader) (tag : Bytes → Bytes) (k : Nat)
    (e : Err) (h : a.err = some e) : a.Read tag k = ([], some e, a) := by
  unfold FastAuthReader.Read
  rw [if_pos (by simp [h]), h]

/-- Outputs of a sequence of subsequent Read calls on fastFileReader (the
list gives the size of each request); cut short on a panic. -/
def FastFileReader.chainOutputs (r : FastFileReader) : List Nat → List (Bytes × Option Err)
  | [] => []
  | k :: ks =>
    match r.Read k with
    | none => []
    | some (out, e, r₁) => (out, e) :: r₁.chainOutputs ks

/-- States of fastFileReader that keep reproducing the error e: either e is
stored in r.err, or (the unexpected-truncation quirk, which stores nothing)
the byte counts mismatch and rc keeps reporting end of file. -/
def FastFileReader.errState (r : FastFileReader) (e : Err) : Prop :=
  r.err = some e ∨
  (r.err = none ∧ e = .unexpectedEOF ∧ r.nread ≠ r.fUncompressedSize ∧
    (r.limitN ≤ 0 ∨ (r.raw.rawReader = [] ∧
      ¬(r.raw.rewound = true ∧ r.raw.bufReadIdx < r.raw.buf.length))))

lemma FastFileReader.errState_read (r : FastFileReader) (e : Err) (k : Nat)
    (h : r.errState e) :
    ∃ r₁, r.Read k = some ([], some e, r₁) ∧ r₁.errState e := by
  rcases h with h | ⟨herr, he, hnread, hrc⟩
  · refine ⟨r, ?_, Or.inl h⟩
    unfold FastFileReader.Read
    rw [if_pos (by simp [h]), h]
  · subst he
    rcases hrc with hlim | ⟨hraw, hcond⟩
    · refine ⟨{ r with hashed := r.hashed ++ [], nread := r.nread + ([] : Bytes).length },
        ?_, Or.inr ⟨herr, rfl, by simpa using hnread, Or.inl (by simpa using hlim)⟩⟩
      unfold FastFileReader.Read FastFileReader.rcRead
      rw [if_neg (by simp [herr]), if_pos hlim]
      dsimp only
      rw [if_pos (show (Err.eof = Err.eof) from rfl)]
      rw [if_pos (by simpa using hnread)]
    · by_cases hlim2 : r.limitN ≤ 0
      · refine ⟨{ r with hashed := r.hashed ++ [], nread := r.nread + ([] : Bytes).length },
          ?_, Or.inr ⟨herr, rfl, by simpa using hnread, Or.inl (by simpa using hlim2)⟩⟩
        unfold FastFileReader.Read FastFileReader.rcRead
        rw [if_neg (by simp [herr]), if_pos hlim2]
        dsimp only
        rw [if_pos (show (Err.eof = Err.eof) from rfl)]
        rw [if_pos (by simpa using hnread)]
      · have hread : r.raw.Read (Min.min k r.limitN.toNat) = ([], some .eof,
            { r.raw with
              rewound := false,
              rawReader := [],
              buf := if r.raw.buffering then r.raw.buf ++ [] else r.raw.buf }) := by
          unfold RewindReader.Read RewindReader.read
          rw [if_neg hcond]
          simp [rawRead, hraw]
        refine ⟨{ r with
            raw := { r.raw with
                     rewound := false,
                     rawReader := [],
                     buf := if r.raw.buffering then r.raw.buf ++ [] else r.raw.buf },
            limitN := r.limitN - (([] : Bytes).length : Int),
            hashed := r.hashed ++ [],
            nread := r.nread + ([] : Bytes).length }, ?_, ?_⟩
        · unfold FastFileReader.Read FastFileReader.rcRead
          rw [if_neg (by simp [herr]), if_neg hlim2]
          dsimp only
          rw [hread]
          dsimp only
          rw [if_pos (show (Err.eof = Err.eof) from rfl)]
          rw [if_pos (by simpa using hnread)]
        · exact Or.inr ⟨herr, rfl, by simpa using hnread, Or.inr ⟨rfl, by simp⟩⟩

lemma FastFileReader.errState_chain (r : FastFileReader) (e : Err)
    (h : r.errState e) :
    ∀ ks : List Nat, r.chainOutputs ks = ks.map (fun _ => ([], some e))
  | [] => by simp [FastFileReader.chainOutputs]
  | k :: ks => by
    obtain ⟨r₁, hread, hstate⟩ := r.errState_read e k h
    unfold FastFileReader.chainOutputs
    rw [hread]
    dsimp only
    rw [r₁.errState_chain e hstate ks]
    simp

lemma Read_eof_inv (r : RewindReader) (k : Nat) (out : Bytes) (r₁ : RewindReader)
    (h : r.Read k = (out, some .eof, r₁)) :
    out = [] ∧ r₁.rawReader = [] ∧ r₁.rewound = false := by
  unfold RewindReader.Read RewindReader.read rawRead at h
  dsimp only at h
  repeat' split at h
  all_goals
    rw [Prod.mk.injEq, Prod.mk.injEq] at h
    obtain ⟨h1, h2, h3⟩ := h
  all_goals try cases h2
  all_goals subst h3
  all_goals simp_all [List.isEmpty_iff]

lemma FastFileReader.rcRead_eof (r : FastFileReader) (k : Nat) (out : Bytes)
    (r₁ : FastFileReader) (h : r.rcRead k = (out, some .eof, r₁)) :
    out = [] ∧ r₁.err = r.err ∧ r₁.nread = r.nread ∧
    r₁.fUncompressedSize = r.fUncompressedSize ∧
    (r₁.limitN ≤ 0 ∨ (r₁.raw.rawReader = [] ∧
      ¬(r₁.raw.rewound = true ∧ r₁.raw.bufReadIdx < r₁.raw.buf.length))) := by
  unfold FastFileReader.rcRead at h
  split at h
  · rw [Prod.mk.injEq, Prod.mk.injEq] at h
    obtain ⟨h1, h2, h3⟩ := h
    subst h3
    exact ⟨h1.symm, rfl, rfl, rfl, Or.inl (by assumption)⟩
  · dsimp only at h
    rcases hr : r.raw.Read (Min.min k r.limitN.toNat) with ⟨out₂, e₂, raw₂⟩
    rw [hr] at h
    dsimp only at h
    rw [Prod.mk.injEq, Prod.mk.injEq] at h
    obtain ⟨h1, h2, h3⟩ := h
    subst h3
    subst h2
    obtain ⟨ho, hraw, hrew⟩ := Read_eof_inv _ _ _ _ hr
    subst h1
    exact ⟨ho, rfl, rfl, rfl, Or.inr ⟨by simpa using hraw, by simp [hrew]⟩⟩

lemma FastFileReader.read_err_errState (r : FastFileReader) (k : Nat)
    (out : Bytes) (e : Err) (r₁ : FastFileReader)
    (h : r.Read k = some (out, some e, r₁)) : r₁.errState e := by
  unfold FastFileReader.Read at h
  by_cases herr : r.err ≠ none
  · rw [if_pos herr] at h
    rw [Option.some.injEq, Prod.mk.injEq, Prod.mk.injEq] at h
    obtain ⟨h1, h2, h3⟩ := h
    subst h3
    exact Or.inl h2
  · rw [if_neg herr] at h
    have herr2 : r.err = none := by simpa using herr
    rcases hr : r.rcRead k with ⟨out₂, e₂, r₂⟩
    rw [hr] at h
    dsimp only at h
    rcases e₂ with _ | err₂
    · rw [Option.some.injEq, Prod.mk.injEq, Prod.mk.injEq] at h
      exact absurd h.2.1 (by simp)
    · by_cases heof : err₂ = Err.eof
      · subst heof
        obtain ⟨ho, he, hn, hs, hrc⟩ := FastFileReader.rcRead_eof r k out₂ r₂ hr
        subst ho
        dsimp only at h
        rw [if_pos rfl] at h
        repeat' split at h
        all_goals try exact Option.noConfusion h
        all_goals
          rw [Option.some.injEq, Prod.mk.injEq, Prod.mk.injEq] at h
          obtain ⟨h1, h2, h3⟩ := h
        all_goals try cases h2
        all_goals try subst h3
        all_goals solve
          | (apply Or.inl
             simp_all)
          | (refine Or.inr ⟨by simp_all, by simp_all, by simp_all, ?_⟩
             rcases hrc with hlim | ⟨hraw, hcond⟩
             · exact Or.inl (by simp_all)
             · exact Or.inr ⟨by simp_all, by simp_all⟩)
      · dsimp only at h
        rw [if_neg heof] at h
        rw [Option.some.injEq, Prod.mk.injEq, Prod.mk.injEq] at h
        obtain ⟨h1, h2, h3⟩ := h
        subst h3
        cases h2
        exact Or.inl rfl

/-- C9: sticky failure of the per-entry readers.  For fastAuthReader, once a
Read has returned an error it is stored, and every subsequent Read returns
no bytes and that same error with the state unchanged.  For fastFileReader,
once a Read has returned an error, every subsequent chain of Read calls
returns no bytes and that same error each time (the unexpected-truncation
error is reproduced by re-evaluation rather than via the stored field, but
the observable behaviour is the same). -/
theorem sticky_failures :
    (∀ (a : FastAuthReader) (hmacTag : Bytes → Bytes) (k : Nat) (out : Bytes) (e : Err)
        (a₁ : FastAuthReader), a.Read hmacTag k = (out, some e, a₁) →
      ∀ k₂, a₁.Read hmacTag k₂ = ([], some e, a₁)) ∧
    (∀ (r : FastFileReader) (k : Nat) (out : Bytes) (e : Err) (r₁ : FastFileReader),
      r.Read k = some (out, some e, r₁) →
      ∀ ks : List Nat, r₁.chainOutputs ks = ks.map (fun _ => ([], some e))) := by
  constructor
  · intro a tag k out e a₁ h k₂
    exact a₁.read_of_err tag k₂ e (FastAuthReader.read_err_stored a tag k out e a₁ h)
  · intro r k out e r₁ h ks
    exact r₁.errState_chain e (FastFileReader.read_err_errState r k out e r₁ h) ks

theorem sticky_failures_witness :
    FastAuthReader.Read
        (⟨0, mkReader [] 0, 0, [], some .errAuthentication, false⟩ : FastAuthReader)
        (fun _ => []) 2
      = ([], some .errAuthentication,
        (⟨0, mkReader [] 0, 0, [], some .errAuthentication, false⟩ : FastAuthReader)) ∧
    FastFileReader.chainOutputs
        (⟨mkReader [] 0, 0, [], 1, 0, 5, 1, some .errChecksum⟩ : FastFileReader) [1, 2]
      = [([], some .errChecksum), ([], some .errChecksum)] :=
  ⟨sticky_failures.1
      (⟨0, mkReader [] 0, 0, [], some .errAuthentication, false⟩ : FastAuthReader)
      (fun _ => []) 1 [] .errAuthentication
      (⟨0, mkReader [] 0, 0, [], some .errAuthentication, false⟩ : FastAuthReader)
      (by decide) 2,
   sticky_failures.2
      (⟨mkReader [] 0, 0, [], 1, 0, 5, 1, none⟩ : FastFileReader) 1 [] .errChecksum
      (⟨mkReader [] 0, 0, [], 1, 0, 5, 1, some .errChecksum⟩ : FastFileReader)
      (by decide) [1, 2]⟩

/-- A catalog entry (fast_reader.go lines 116-119): the parsed FileHeader
together with the physical offset of the entry's local header. -/
structure FastFile where
  header : FileHeader
  headerOffset : Int
  deriving DecidableEq, Repr

/-- The reordering performed at the end of FastReader.init (fast_reader.go
lines 99-101): the entry list parsed from the central directory is sorted by
ascending physical headerOffset. -/
def FastReader.init (files : List FastFile) : List FastFile :=
  files.insertionSort (fun a b => a.headerOffset ≤ b.headerOffset)

/-- FastReader.WalkDir (fast_reader.go lines 54-58): apply fn to each catalog
entry in list order, collecting the results of the visits. -/
def FastReader.WalkDir {α : Type} (fn : FastFile → α) : List FastFile → List α
  | [] => []
  | f :: fs => fn f :: FastReader.WalkDir fn fs

instance : IsTotal FastFile (fun a b => a.headerOffset ≤ b.headerOffset) :=
  ⟨fun a b => Int.le_total a.headerOffset b.headerOffset⟩

instance : IsTrans FastFile (fun a b => a.headerOffset ≤ b.headerOffset) :=
  ⟨fun _ _ _ => le_trans⟩

lemma FastReader.walkDir_eq_map {α : Type} (fn : FastFile → α) :
    ∀ files : List FastFile, FastReader.WalkDir fn files = files.map fn
  | [] => rfl
  | f :: fs => by simp [FastReader.WalkDir, walkDir_eq_map fn fs]

def entryA : FastFile := ⟨⟨11, 5, 5, 0, 0, []⟩, 10⟩

def entryB : FastFile := ⟨⟨22, 6, 6, 0, 0, []⟩, 20⟩

def entryC : FastFile := ⟨⟨33, 7, 7, 0, 0, []⟩, 30⟩

/-- C7: after FastReader.init, the catalog is ordered by ascending physical
local-header offset whatever order the central directory listed the entries
in (the result is a permutation of the parsed list, pairwise ordered by
headerOffset), WalkDir visits the entries in exactly that list order, and a
directory listing [C, A, B] with physical offsets A < B < C is iterated as
[A, B, C]. -/
theorem entries_sorted_by_physical_offset :
    (∀ files : List FastFile,
      List.Pairwise (fun a b => a.headerOffset ≤ b.headerOffset)
        (FastReader.init files) ∧
      (FastReader.init files).Perm files ∧
      FastReader.WalkDir (fun f => f) (FastReader.init files)
        = FastReader.init files) ∧
    entryA.headerOffset < entryB.headerOffset ∧
    entryB.headerOffset < entryC.headerOffset ∧
    FastReader.WalkDir (fun f => f) (FastReader.init [entryC, entryA, entryB])
      = [entryA, entryB, entryC] := by
  refine ⟨fun files => ⟨?_, ?_, ?_⟩, by decide, by decide, by decide⟩
  · exact List.sorted_insertionSort _ files
  · exact List.perm_insertionSort _ files
  · rw [FastReader.walkDir_eq_map]
    simp

end Zip
